import Mathlib

/-!
Shallow embedding of the `mcp-terminal` session manager core
(`src/session.rs`): the bounded output buffer with front eviction, the
ANSI-escape sanitizer, lossy UTF-8 decoding of buffered bytes, the
session registry operations (`send_input`, `read_output`,
`close_session`), the drain task's read loop, and the polling
wait-with-timeout used by `execute`.
-/

namespace McpTerminal

/-- Maximum output buffer size per interactive session (1 MB),
`MAX_BUFFER_SIZE` in `session.rs`. -/
def MAX_BUFFER_SIZE : Nat := 1024 * 1024

/-- Hard cap for the synchronous `execute` output buffer (2 MB),
the literal `2 * 1024 * 1024` in `execute`'s reader thread. -/
def EXEC_BUFFER_SIZE : Nat := 2 * 1024 * 1024

/-- One append step of a drain loop: `output.extend_from_slice(&buf[..n])`
followed by `if output.len() > cap { output.drain(..output.len() - cap) }`.
Bytes are modelled as `Nat`. -/
def appendEvict (cap : Nat) (buf chunk : List Nat) : List Nat :=
  let out := buf ++ chunk
  if out.length > cap then out.drop (out.length - cap) else out

/-- The suffix of `l` of length `min n l.length` (the last `n` elements). -/
def lastN (n : Nat) (l : List α) : List α :=
  l.drop (l.length - n)

/-! ### Output sanitizer (`strip_ansi_escapes`, session.rs lines 363-409) -/

/-- The final-byte test of the CSI loop:
`c.is_ascii_alphabetic() || c == 'H' || c == 'J' || c == 'K'`. -/
def csiFinal (c : Char) : Bool :=
  (c.isUpper || c.isLower) || c = 'H' || c = 'J' || c = 'K'

/-- The CSI inner loop: consume characters up to and including the first
final byte, or to the end of input. Returns the unconsumed remainder. -/
def skipCSI : List Char → List Char
  | [] => []
  | c :: rest => if csiFinal c then rest else skipCSI rest

/-- The OSC inner loop: consume characters up to and including a BEL, or
an ESC (additionally consuming a following backslash as in
`if chars.peek() == Some of backslash then chars.next()`), or to the end
of input. Returns the unconsumed remainder. -/
def skipOSC : List Char → List Char
  | [] => []
  | c :: rest =>
    if c = '\x07' then rest
    else if c = '\x1b' then
      if rest.head? = some '\\' then rest.drop 1 else rest
    else skipOSC rest

theorem skipCSI_length_le (l : List Char) : (skipCSI l).length ≤ l.length := by
  induction l with
  | nil => simp [skipCSI]
  | cons c rest ih =>
    simp only [skipCSI]
    split
    · simp
    · exact Nat.le_trans ih (Nat.le_succ _)

theorem skipOSC_length_le (l : List Char) : (skipOSC l).length ≤ l.length := by
  induction l with
  | nil => simp [skipOSC]
  | cons c rest ih =>
    simp only [skipOSC]
    split
    · simp
    · split
      · split
        · simp [List.length_drop]; omega
        · simp
      · exact Nat.le_trans ih (Nat.le_succ _)

/-- Direct translation of `strip_ansi_escapes`'s main loop over the
character sequence of the input. An ESC introducing a CSI, OSC or
charset-designation sequence causes the sequence to be consumed without
output; an ESC followed by any other character (or at the end of input)
is consumed without output and without consuming the next character;
carriage returns are dropped; all other characters are emitted. -/
def stripAnsi : List Char → List Char
  | [] => []
  | ['\x1b'] => []
  | '\x1b' :: next :: rest2 =>
    if next = '[' then stripAnsi (skipCSI rest2)
    else if next = ']' then stripAnsi (skipOSC rest2)
    else if next = '(' || next = ')' then stripAnsi (rest2.drop 1)
    else stripAnsi (next :: rest2)
  | ch :: rest =>
    if ch = '\r' then stripAnsi rest
    else ch :: stripAnsi rest
termination_by l => l.length
decreasing_by
  all_goals simp_wf
  all_goals
    first
      | omega
      | (have hcsi : (skipCSI rest2).length ≤ rest2.length := skipCSI_length_le rest2
         omega)
      | (have hosc : (skipOSC rest2).length ≤ rest2.length := skipOSC_length_le rest2
         omega)

unseal stripAnsi

/-- `strip_ansi_escapes` on a `String`. -/
def strip_ansi_escapes (input : String) : String :=
  String.mk (stripAnsi input.data)

/-! ### Rust `str::lines` and the `max_lines` truncation of `read_output` -/

/-- Drop one trailing carriage return, as Rust's `lines` does for `\r\n`
line endings. -/
def stripTrailingCR (s : String) : String :=
  if s.data ≠ [] ∧ s.data.getLast? = some '\r' then String.mk s.data.dropLast else s

/-- Splitting a character sequence at newline characters: the line
segmentation underlying Rust's `str::lines` iterator. -/
def splitOnNL : List Char → List (List Char)
  | [] => [[]]
  | c :: rest =>
    match splitOnNL rest with
    | [] => [[]]
    | cur :: done =>
      if c = '\n' then [] :: cur :: done else (c :: cur) :: done

/-- Rust's `str::lines`: split at `\n`, a final line ending is optional
(a trailing empty segment is not a line), and a `\r` preceding a split
point is stripped. -/
def rustLines (s : String) : List String :=
  let parts := (splitOnNL s.data).map (fun l => String.mk l)
  (if parts.getLast? = some "" then parts.dropLast else parts).map stripTrailingCR

/-- The last-`n`-lines truncation performed by `read_output` when
`max_lines` is given: collect the lines, drop all but the last `n`
(`saturating_sub`), and re-join with `\n`. -/
def lastNLines (n : Nat) (text : String) : String :=
  let lines := rustLines text
  let start := lines.length - n
  String.intercalate "\n" (lines.drop start)

/-! ### Lossy UTF-8 decoding (`String::from_utf8_lossy`)

Rust's validation consumes a maximal invalid subsequence per replacement:
an invalid leading byte is replaced alone; an invalid continuation byte
ends the invalid sequence just before itself and is re-examined as a new
leading byte; a sequence truncated by the end of input becomes a single
replacement character. -/

/-- The Unicode replacement character U+FFFD. -/
def replacementChar : Char := Char.ofNat 0xFFFD

/-- A UTF-8 continuation byte, `0x80 ..= 0xBF`. -/
def isCont (b : Nat) : Bool := 0x80 ≤ b && b ≤ 0xBF

/-- Valid second byte for a three-byte sequence with leading byte `b0`
(Rust's validation table: `E0 A0..=BF`, `E1..=EC 80..=BF`, `ED 80..=9F`,
`EE..=EF 80..=BF`). -/
def validSecondOf3 (b0 b1 : Nat) : Bool :=
  (b0 = 0xE0 && 0xA0 ≤ b1 && b1 ≤ 0xBF) ||
  (0xE1 ≤ b0 && b0 ≤ 0xEC && isCont b1) ||
  (b0 = 0xED && 0x80 ≤ b1 && b1 ≤ 0x9F) ||
  (0xEE ≤ b0 && b0 ≤ 0xEF && isCont b1)

/-- Valid second byte for a four-byte sequence with leading byte `b0`
(`F0 90..=BF`, `F1..=F3 80..=BF`, `F4 80..=8F`). -/
def validSecondOf4 (b0 b1 : Nat) : Bool :=
  (b0 = 0xF0 && 0x90 ≤ b1 && b1 ≤ 0xBF) ||
  (0xF1 ≤ b0 && b0 ≤ 0xF3 && isCont b1) ||
  (b0 = 0xF4 && 0x80 ≤ b1 && b1 ≤ 0x8F)

/-- Lossy UTF-8 decoding of a byte sequence, one scalar or one
replacement character at a time. -/
def lossyDecode : List Nat → List Char
  | [] => []
  | b0 :: rest =>
    if b0 < 0x80 then Char.ofNat b0 :: lossyDecode rest
    else if 0xC2 ≤ b0 && b0 ≤ 0xDF then
      match rest with
      | [] => [replacementChar]
      | b1 :: rest1 =>
        if isCont b1 then
          Char.ofNat ((b0 - 0xC0) * 64 + (b1 - 0x80)) :: lossyDecode rest1
        else replacementChar :: lossyDecode (b1 :: rest1)
    else if 0xE0 ≤ b0 && b0 ≤ 0xEF then
      match rest with
      | [] => [replacementChar]
      | b1 :: rest1 =>
        if validSecondOf3 b0 b1 then
          match rest1 with
          | [] => [replacementChar]
          | b2 :: rest2 =>
            if isCont b2 then
              Char.ofNat ((b0 - 0xE0) * 4096 + (b1 - 0x80) * 64 + (b2 - 0x80)) ::
                lossyDecode rest2
            else replacementChar :: lossyDecode (b2 :: rest2)
        else replacementChar :: lossyDecode (b1 :: rest1)
    else if 0xF0 ≤ b0 && b0 ≤ 0xF4 then
      match rest with
      | [] => [replacementChar]
      | b1 :: rest1 =>
        if validSecondOf4 b0 b1 then
          match rest1 with
          | [] => [replacementChar]
          | b2 :: rest2 =>
            if isCont b2 then
              match rest2 with
              | [] => [replacementChar]
              | b3 :: rest3 =>
                if isCont b3 then
                  Char.ofNat
                      ((b0 - 0xF0) * 262144 + (b1 - 0x80) * 4096 +
                        (b2 - 0x80) * 64 + (b3 - 0x80)) ::
                    lossyDecode rest3
                else replacementChar :: lossyDecode (b3 :: rest3)
            else replacementChar :: lossyDecode (b2 :: rest2)
        else replacementChar :: lossyDecode (b1 :: rest1)
    else replacementChar :: lossyDecode rest
termination_by l => l.length
decreasing_by all_goals (simp_wf; try omega)

unseal lossyDecode

/-- `String::from_utf8_lossy(&raw).to_string()` on a byte buffer. -/
def from_utf8_lossy (raw : List Nat) : String :=
  String.mk (lossyDecode raw)

/-! ### Session registry model (`SessionManager`, session.rs)

A session's manager-visible mutable state is its output buffer and its
liveness flag; the registry is the `HashMap` from session id to session,
modelled as an association list with `HashMap` lookup/insert/remove
semantics. The PTY writer, master handle and reader thread perform
external I/O and have no registry-visible state. -/

/-- The drain-task-shared state of one session: `output` behind its
mutex and the `is_alive` flag behind its mutex. -/
structure SessionState where
  output : List Nat
  isAlive : Bool
deriving Repr, DecidableEq

/-- The `sessions: Mutex<HashMap<String, Session>>` registry. -/
abbrev Registry := List (String × SessionState)

/-- Errors of the registry operations. The Rust code reports them as
formatted strings; `notFound` stands for `"Session {id} not found"`. -/
inductive SessionError where
  | notFound (id : String)
deriving Repr, DecidableEq

/-- `send_input` (session.rs lines 164-183): look the session up, fail
with NotFound if absent; otherwise write the input bytes to the PTY
writer and flush. The write and flush are external I/O with no
registry-visible effect, modelled as succeeding. -/
def send_input (reg : Registry) (id : String) (_input : String) :
    Except SessionError Unit :=
  match List.lookup id reg with
  | none => .error (.notFound id)
  | some _ => .ok ()

/-- The effect of `std::mem::take(&mut *output_buf)` on the registry:
the named session's buffer is swapped for an empty one, everything else
is untouched. -/
def clearBuffer (reg : Registry) (id : String) : Registry :=
  reg.map (fun p => (p.1, if p.1 = id then { p.2 with output := [] } else p.2))

/-- The text assembly of `read_output` (session.rs lines 195-208): lossy
UTF-8 decode of the drained bytes, ANSI stripping, then the optional
last-`max_lines` truncation. -/
def readOutputText (raw : List Nat) (maxLines : Option Nat) : String :=
  let text := from_utf8_lossy raw
  let cleaned := strip_ansi_escapes text
  match maxLines with
  | some max => lastNLines max cleaned
  | none => cleaned

/-- `read_output` (session.rs lines 186-211): look the session up, fail
with NotFound if absent; otherwise atomically take the buffer contents,
read the liveness flag, and return the assembled text, the flag, and the
registry with that session's buffer emptied. -/
def read_output (reg : Registry) (id : String) (maxLines : Option Nat) :
    Except SessionError (String × Bool × Registry) :=
  match List.lookup id reg with
  | none => .error (.notFound id)
  | some s => .ok (readOutputText s.output maxLines, s.isAlive, clearBuffer reg id)

/-- `close_session` (session.rs lines 214-222): remove the session from
the registry, failing with NotFound if absent. Dropping the removed
session releases the PTY master. -/
def close_session (reg : Registry) (id : String) : Except SessionError Registry :=
  match List.lookup id reg with
  | none => .error (.notFound id)
  | some _ => .ok (reg.filter (fun p => p.1 != id))

/-! ### Drain task (`create_session`'s reader thread, session.rs 114-138) -/

/-- One outcome of `reader.read(&mut buf)` as observed by the drain
loop: a non-empty chunk, end-of-stream (`Ok(0)`), or a read error. -/
inductive ReadEvent where
  | data (chunk : List Nat)
  | eof
  | readErr
deriving Repr, DecidableEq

/-- An event on which the drain loop terminates, flipping liveness. -/
def isTermEvent : ReadEvent → Bool
  | .data _ => false
  | .eof => true
  | .readErr => true

/-- The drain loop over a sequence of read outcomes: data chunks are
appended with eviction at capacity `cap`; the first end-of-stream or
error sets the liveness flag false and stops the loop. -/
def drainRun (cap : Nat) (st : SessionState) : List ReadEvent → SessionState
  | [] => st
  | ev :: rest =>
    match ev with
    | .data chunk => drainRun cap { st with output := appendEvict cap st.output chunk } rest
    | .eof => { st with isAlive := false }
    | .readErr => { st with isAlive := false }

/-! ### Timeout supervisor (`wait_with_timeout`, session.rs 341-360) and
`execute`'s use of it (session.rs 312-321)

The loop's interaction with the child is modelled as the sequence of
`try_wait` observations, each paired with the elapsed time (in seconds)
at that poll. A trace that ends before the loop decides yields `none`. -/

/-- One `child.try_wait()` observation. -/
inductive PollResult where
  | exited (code : Nat)
  | running
  | waitFailed (msg : String)
deriving Repr, DecidableEq

/-- The outcome of `wait_with_timeout`: an exit code, or an error
string (`"Timeout"` or `"Wait error: {e}"`). -/
inductive WaitOutcome where
  | ok (code : Nat)
  | err (msg : String)
deriving Repr, DecidableEq

/-- `wait_with_timeout`: return the exit status as soon as `try_wait`
reports one; fail with `"Wait error: {e}"` as soon as `try_wait` itself
fails; on a still-running child, fail with `"Timeout"` once the elapsed
time has reached the timeout, else sleep and poll again. -/
def wait_with_timeout (timeout : Nat) : List (PollResult × Nat) → Option WaitOutcome
  | [] => none
  | (p, elapsed) :: rest =>
    match p with
    | .exited code => some (.ok code)
    | .waitFailed m => some (.err ("Wait error: " ++ m))
    | .running =>
      if elapsed ≥ timeout then some (.err "Timeout")
      else wait_with_timeout timeout rest

/-- What `execute` does with the wait outcome (session.rs 313-321): an
exit status is kept; on any error it kills the child and fails with
`"Command timed out after {timeout}s: {e}"`. -/
inductive ExecWaitOutcome where
  | success (code : Nat)
  | killedWithError (msg : String)
deriving Repr, DecidableEq

/-- The wait phase of `execute` with the caller's optional
`timeout_secs` (default 300). -/
def executeWaitPhase (timeoutSecs : Option Nat) (polls : List (PollResult × Nat)) :
    Option ExecWaitOutcome :=
  let timeout := timeoutSecs.getD 300
  match wait_with_timeout timeout polls with
  | some (.ok code) => some (.success code)
  | some (.err e) =>
      some (.killedWithError ("Command timed out after " ++ toString timeout ++ "s: " ++ e))
  | none => none

/-- A poll trace on which the loop times out: the first decisive
observation is a still-running child at elapsed time `≥ t`. -/
def timesOutAt (t : Nat) : List (PollResult × Nat) → Bool
  | [] => false
  | (p, elapsed) :: rest =>
    match p with
    | .running => if elapsed ≥ t then true else timesOutAt t rest
    | _ => false

/-- Result of a synchronous command execution (`ExecResult`). -/
structure ExecResult where
  stdout : String
  exit_code : Nat
deriving Repr, DecidableEq

/-- The output assembly of `execute` after a successful wait
(session.rs 329-336): lossy UTF-8 decode of the accumulated buffer, ANSI
stripping, paired with the exit code. -/
def execFinish (raw : List Nat) (exitCode : Nat) : ExecResult :=
  { stdout := strip_ansi_escapes (from_utf8_lossy raw), exit_code := exitCode }

/-! ### Lock-scope traces of the manager operations

Rust mutex guards have lexical scope, so the sequence of lock and I/O
events of each operation is fixed by the source text. `regAcquire` and
`regRelease` delimit the `self.sessions.lock()` guard; `ioOp` is a
blocking read/write/flush against a PTY handle; `memOp` is in-memory
work (lookup, buffer mutation, decoding, sanitizing, handle release). -/

/-- Lock and I/O events. -/
inductive Event where
  | regAcquire
  | regRelease
  | memOp
  | ioOp
deriving Repr, DecidableEq

/-- `send_input`: the registry guard is taken at line 165 and held to
the end of the function; `write_all` (line 173) and `flush` (line 179)
happen inside it. -/
def sendInputTrace : List Event :=
  [.regAcquire, .memOp, .ioOp, .ioOp, .regRelease]

/-- `read_output`: lookup, buffer take, liveness read, decode and
sanitize — all in-memory — under the registry guard; no PTY I/O. -/
def readOutputTrace : List Event :=
  [.regAcquire, .memOp, .memOp, .memOp, .memOp, .regRelease]

/-- `close_session`: lookup-and-remove, then the removed session (and
with it the PTY master handle) is dropped, under the registry guard; no
blocking read/write. -/
def closeSessionTrace : List Event :=
  [.regAcquire, .memOp, .memOp, .regRelease]

/-- `list_sessions`: snapshot iteration under the registry guard. -/
def listSessionsTrace : List Event :=
  [.regAcquire, .memOp, .regRelease]

/-- Whether some `ioOp` occurs while the registry lock is held. -/
def ioWhileRegHeld : List Event → Bool → Bool
  | [], _ => false
  | e :: rest, held =>
    match e with
    | .regAcquire => ioWhileRegHeld rest true
    | .regRelease => ioWhileRegHeld rest false
    | .ioOp => held || ioWhileRegHeld rest held
    | .memOp => ioWhileRegHeld rest held

/-- An operation holds the registry lock across an I/O operation. -/
def holdsRegAcrossIO (t : List Event) : Bool :=
  ioWhileRegHeld t false

/-! ## Helper lemmas -/

theorem lastN_nil (n : Nat) : lastN n ([] : List α) = [] := by
  simp [lastN]

theorem length_lastN (n : Nat) (l : List α) : (lastN n l).length = min n l.length := by
  simp only [lastN, List.length_drop]
  omega

/-- One eviction step starting from a buffer that is already the
`cap`-suffix of the history produces the `cap`-suffix of the extended
history. -/
theorem appendEvict_lastN (cap : Nat) (a b : List Nat) :
    appendEvict cap (lastN cap a) b = lastN cap (a ++ b) := by
  unfold appendEvict lastN
  have hk : a.length - cap ≤ a.length := Nat.sub_le _ _
  rw [← List.drop_append_of_le_length hk]
  have hlen : ((a ++ b).drop (a.length - cap)).length =
      a.length + b.length - (a.length - cap) := by
    simp [List.length_drop, List.length_append]
  dsimp only
  split
  case isTrue h =>
    rw [List.drop_drop]
    congr 1
    rw [hlen] at h ⊢
    simp only [List.length_append]
    omega
  case isFalse h =>
    congr 1
    rw [hlen] at h
    simp only [List.length_append]
    omega

/-- Folding the eviction step over any chunk sequence, starting from the
`cap`-suffix of a history, yields the `cap`-suffix of the extended
history. -/
theorem foldl_appendEvict_lastN (cap : Nat) (chunks : List (List Nat)) :
    ∀ a : List Nat,
      List.foldl (appendEvict cap) (lastN cap a) chunks = lastN cap (a ++ chunks.flatten) := by
  induction chunks with
  | nil => intro a; simp
  | cons c cs ih =>
    intro a
    simp only [List.foldl_cons, List.flatten_cons]
    rw [appendEvict_lastN, ih (a ++ c), List.append_assoc]

/-- The drain loop over data chunks folds the eviction step over the
buffer and leaves the liveness flag alone. -/
theorem drainRun_data_output (cap : Nat) (chunks : List (List Nat)) :
    ∀ st : SessionState,
      drainRun cap st (chunks.map ReadEvent.data) =
        ⟨List.foldl (appendEvict cap) st.output chunks, st.isAlive⟩ := by
  induction chunks with
  | nil => intro st; rfl
  | cons c cs ih =>
    intro st
    simp only [List.map_cons, drainRun, List.foldl_cons]
    exact ih _

/-- Unfolding of the sanitizer at a head character that is not ESC. -/
theorem stripAnsi_cons_other (c : Char) (l : List Char) (hc : c ≠ '\x1b') :
    stripAnsi (c :: l) = if c = '\r' then stripAnsi l else c :: stripAnsi l := by
  rw [stripAnsi.eq_def]
  split
  · simp_all
  · simp_all
  · simp_all
  · rename_i heq
    injection heq with e1 e2
    subst e1
    subst e2
    rfl

/-- Unfolding of the sanitizer at an ESC introducing a CSI sequence. -/
theorem stripAnsi_esc_csi (rest2 : List Char) :
    stripAnsi ('\x1b' :: '[' :: rest2) = stripAnsi (skipCSI rest2) := by
  rw [stripAnsi.eq_def]
  rfl

/-- Unfolding of the sanitizer at an ESC introducing an OSC sequence. -/
theorem stripAnsi_esc_osc (rest2 : List Char) :
    stripAnsi ('\x1b' :: ']' :: rest2) = stripAnsi (skipOSC rest2) := by
  rw [stripAnsi.eq_def]
  rfl

/-- Unfolding of the sanitizer at an ESC introducing a charset
designation. -/
theorem stripAnsi_esc_paren (next : Char) (rest2 : List Char)
    (hn : next = '(' ∨ next = ')') :
    stripAnsi ('\x1b' :: next :: rest2) = stripAnsi (rest2.drop 1) := by
  rw [stripAnsi.eq_def]
  rcases hn with hn | hn <;> subst hn <;> simp

/-- An ESC followed by a character that introduces none of the
recognized sequences is consumed without output; the following character
is then processed as usual. -/
theorem stripAnsi_esc_other (next : Char) (rest2 : List Char)
    (h1 : next ≠ '[') (h2 : next ≠ ']') (h3 : next ≠ '(') (h4 : next ≠ ')') :
    stripAnsi ('\x1b' :: next :: rest2) = stripAnsi (next :: rest2) := by
  rw [stripAnsi.eq_def]
  simp [h1, h2, h3, h4]

/-- The sanitizer distributes over an ESC-free prefix: those characters
pass through unchanged and in order, except carriage returns. -/
theorem stripAnsi_append_of_no_esc (cs t : List Char) (hcs : '\x1b' ∉ cs) :
    stripAnsi (cs ++ t) = cs.filter (fun x => x != '\r') ++ stripAnsi t := by
  induction cs with
  | nil => simp
  | cons c cs' ih =>
    have hcs2 : ¬('\x1b' = c ∨ '\x1b' ∈ cs') := by simpa [List.mem_cons] using hcs
    push_neg at hcs2
    have hc : c ≠ '\x1b' := fun h => hcs2.1 h.symm
    have hcs' : '\x1b' ∉ cs' := hcs2.2
    rw [List.cons_append, stripAnsi_cons_other c _ hc, List.filter_cons]
    by_cases hr : c = '\r'
    · subst hr
      simp [ih hcs']
    · have hb : (c != '\r') = true := by simp [hr]
      simp [hr, hb, ih hcs']

/-- A CSI remainder containing no final byte is consumed entirely. -/
theorem skipCSI_eq_nil (ps : List Char) (h : ∀ c ∈ ps, csiFinal c = false) :
    skipCSI ps = [] := by
  induction ps with
  | nil => rfl
  | cons c r ih =>
    have hc := h c (List.mem_cons_self c r)
    simp only [skipCSI, hc, Bool.false_eq_true, if_false]
    exact ih fun x hx => h x (List.mem_cons_of_mem c hx)

/-- An OSC remainder containing no BEL and no ESC is consumed
entirely. -/
theorem skipOSC_eq_nil (os : List Char) (h : ∀ c ∈ os, c ≠ '\x07' ∧ c ≠ '\x1b') :
    skipOSC os = [] := by
  induction os with
  | nil => rfl
  | cons c r ih =>
    have hc := h c (List.mem_cons_self c r)
    simp only [skipOSC, hc.1, hc.2, if_false]
    exact ih fun x hx => h x (List.mem_cons_of_mem c hx)

/-- Association-list lookup through a key-preserving value map. -/
theorem lookup_map_entry (f : String → SessionState → SessionState)
    (reg : Registry) (j : String) :
    List.lookup j (reg.map (fun p => (p.1, f p.1 p.2))) =
      (List.lookup j reg).map (f j) := by
  induction reg with
  | nil => rfl
  | cons p rest ih =>
    obtain ⟨k, v⟩ := p
    by_cases hjk : j = k
    · subst hjk
      simp [List.lookup]
    · have hb : (j == k) = false := by simpa using hjk
      simp [List.lookup, hb, ih]

/-- Looking the cleared session up finds it with an emptied buffer. -/
theorem lookup_clearBuffer_self (reg : Registry) (id : String) :
    List.lookup id (clearBuffer reg id) =
      (List.lookup id reg).map (fun s => { s with output := [] }) := by
  unfold clearBuffer
  rw [lookup_map_entry (fun k s => if k = id then { s with output := [] } else s) reg id]
  simp

/-- Clearing one session's buffer leaves every other registry entry
untouched. -/
theorem lookup_clearBuffer_ne (reg : Registry) (id j : String) (h : j ≠ id) :
    List.lookup j (clearBuffer reg id) = List.lookup j reg := by
  unfold clearBuffer
  rw [lookup_map_entry (fun k s => if k = id then { s with output := [] } else s) reg j]
  simp only [h, if_false]
  cases List.lookup j reg <;> rfl

/-- Clearing a buffer never changes any liveness flag. -/
theorem lookup_clearBuffer_isAlive (reg : Registry) (id j : String) :
    (List.lookup j (clearBuffer reg id)).map SessionState.isAlive =
      (List.lookup j reg).map SessionState.isAlive := by
  by_cases h : j = id
  · subst h
    rw [lookup_clearBuffer_self]
    cases List.lookup j reg <;> rfl
  · rw [lookup_clearBuffer_ne reg id j h]

/-- After removal, the removed id is no longer found. -/
theorem lookup_filter_self (reg : Registry) (id : String) :
    List.lookup id (reg.filter (fun p => p.1 != id)) = none := by
  induction reg with
  | nil => rfl
  | cons p rest ih =>
    obtain ⟨k, v⟩ := p
    by_cases hk : k = id
    · subst hk
      have hb : (k != k) = false := by simp
      simpa [List.filter_cons, hb] using ih
    · have hb : (k != id) = true := by simpa using hk
      have hb2 : (id == k) = false := by
        simp only [beq_eq_false_iff_ne, ne_eq]
        exact fun hh => hk hh.symm
      simp [List.filter_cons, hb, List.lookup, hb2, ih]

/-- Removal leaves every other registry entry untouched. -/
theorem lookup_filter_ne (reg : Registry) (id j : String) (h : j ≠ id) :
    List.lookup j (reg.filter (fun p => p.1 != id)) = List.lookup j reg := by
  induction reg with
  | nil => rfl
  | cons p rest ih =>
    obtain ⟨k, v⟩ := p
    by_cases hk : k = id
    · subst hk
      have hb : (k != k) = false := by simp
      have hbj : (j == k) = false := by simpa using h
      simpa [List.filter_cons, hb, List.lookup, hbj] using ih
    · have hb : (k != id) = true := by simpa using hk
      by_cases hjk : j = k
      · subst hjk
        simp [List.filter_cons, hb, List.lookup]
      · have hbj : (j == k) = false := by simpa using hjk
        simp [List.filter_cons, hb, List.lookup, hbj, ih]

/-- The liveness flag after the drain loop: its start value while only
data events were seen, false as soon as an end-of-stream or read-error
event occurred. -/
theorem drainRun_isAlive (cap : Nat) (evs : List ReadEvent) :
    ∀ buf al, (drainRun cap ⟨buf, al⟩ evs).isAlive = (al && !(evs.any isTermEvent)) := by
  induction evs with
  | nil => intro buf al; simp [drainRun]
  | cons ev rest ih =>
    intro buf al
    cases ev with
    | data c => simpa [drainRun, isTermEvent] using ih _ al
    | eof => simp [drainRun, isTermEvent]
    | readErr => simp [drainRun, isTermEvent]

/-- The wait loop reports a timeout exactly on the traces whose first
decisive observation is a still-running child at or past the deadline. -/
theorem wait_err_timeout_iff (t : Nat) (polls : List (PollResult × Nat)) :
    wait_with_timeout t polls = some (.err "Timeout") ↔ timesOutAt t polls = true := by
  induction polls with
  | nil => simp [wait_with_timeout, timesOutAt]
  | cons pe rest ih =>
    obtain ⟨p, e⟩ := pe
    cases p with
    | exited code => simp [wait_with_timeout, timesOutAt]
    | waitFailed m =>
      have hne : ("Wait error: " ++ m) ≠ "Timeout" := by
        intro heq
        have hlen := congrArg String.length heq
        rw [String.length_append] at hlen
        have h1 : ("Wait error: " : String).length = 12 := rfl
        have h2 : ("Timeout" : String).length = 7 := rfl
        omega
      simp [wait_with_timeout, timesOutAt, hne]
    | running =>
      by_cases he : e ≥ t
      · simp [wait_with_timeout, timesOutAt, he]
      · simp [wait_with_timeout, timesOutAt, he, ih]

/-- Every error the wait loop reports is either the timeout message or a
wait-primitive failure message. -/
theorem wait_err_shape (t : Nat) (polls : List (PollResult × Nat)) :
    ∀ m, wait_with_timeout t polls = some (.err m) →
      m = "Timeout" ∨ ∃ em, m = "Wait error: " ++ em := by
  induction polls with
  | nil => intro m h; simp [wait_with_timeout] at h
  | cons pe rest ih =>
    intro m h
    obtain ⟨p, e⟩ := pe
    cases p with
    | exited code => simp [wait_with_timeout] at h
    | waitFailed m2 =>
      simp [wait_with_timeout] at h
      exact Or.inr ⟨m2, h.symm⟩
    | running =>
      by_cases he : e ≥ t
      · simp [wait_with_timeout, he] at h
        exact Or.inl h.symm
      · simp [wait_with_timeout, he] at h
        exact ih m h

/-- The empty buffer reads back as the empty string under any
`max_lines` option. -/
theorem readOutputText_nil (n : Option Nat) : readOutputText [] n = "" := by
  have hempty : strip_ansi_escapes (from_utf8_lossy []) = "" := rfl
  have hrl : rustLines "" = [] := rfl
  cases n with
  | none => simpa [readOutputText] using hempty
  | some m =>
    show lastNLines m (strip_ansi_escapes (from_utf8_lossy [])) = ""
    rw [hempty]
    simp only [lastNLines, hrl, List.drop_nil]
    rfl

/-! ## Claims -/

/-- Claim C1, counterexample: a failure of the process-wait primitive on
the very first poll is reported by the wait loop as a distinct Wait-error
message, but `execute` nonetheless takes the kill-and-report-timeout
path: it kills the child and fails with the timed-out wording, refuting
the claim that a wait failure does not trigger that path. -/
theorem execute_wait_error_takes_timeout_path :
    wait_with_timeout 300 [(.waitFailed "boom", 0)] = some (.err "Wait error: boom") ∧
    executeWaitPhase none [(.waitFailed "boom", 0)] =
      some (.killedWithError "Command timed out after 300s: Wait error: boom") := by
  decide

/-- Claim C1 (amended): the wait loop reports the `Timeout` error exactly
when its first decisive poll observes a still-running child at elapsed
time at or past the caller's timeout (default 300 s); a wait-primitive
failure produces a distinct `Wait error:` message instead. `execute`,
however, handles every wait-loop error alike: it kills the child and
fails with the `Command timed out after {t}s:` wording wrapping the
inner error. -/
theorem execute_timeout_semantics (tSecs : Option Nat)
    (polls : List (PollResult × Nat)) (m : String)
    (h : wait_with_timeout (tSecs.getD 300) polls = some (.err m)) :
    (m = "Timeout" ↔ timesOutAt (tSecs.getD 300) polls = true) ∧
    executeWaitPhase tSecs polls =
      some (.killedWithError
        ("Command timed out after " ++ toString (tSecs.getD 300) ++ "s: " ++ m)) ∧
    (m ≠ "Timeout" → ∃ em, m = "Wait error: " ++ em) := by
  refine ⟨?_, ?_, ?_⟩
  · constructor
    · intro hm
      subst hm
      exact (wait_err_timeout_iff _ _).mp h
    · intro ht
      have h2 := (wait_err_timeout_iff (tSecs.getD 300) polls).mpr ht
      rw [h] at h2
      simp only [Option.some.injEq, WaitOutcome.err.injEq] at h2
      exact h2
  · simp [executeWaitPhase, h]
  · intro hm
    rcases wait_err_shape _ _ m h with h1 | h2
    · exact absurd h1 hm
    · exact h2

/-- Claim C1 witness: with a one-second timeout and a single poll seeing
the child still running at five seconds elapsed, the loop reports
`Timeout` and `execute` kills and reports the timeout. -/
theorem execute_timeout_semantics_witness :
    ("Timeout" = "Timeout" ↔
      timesOutAt ((some 1 : Option Nat).getD 300) [((PollResult.running), 5)] = true) ∧
    executeWaitPhase (some 1) [((PollResult.running), 5)] =
      some (.killedWithError
        ("Command timed out after " ++ toString ((some 1 : Option Nat).getD 300) ++
          "s: " ++ "Timeout")) ∧
    ("Timeout" ≠ "Timeout" → ∃ em, "Timeout" = "Wait error: " ++ em) :=
  execute_timeout_semantics (some 1) [((PollResult.running), 5)] "Timeout" (by decide)

/-- Claim C2: for every capacity and every sequence of appended chunks,
the buffer produced by folding the drain loop's append-and-evict step
from empty equals the suffix of length `min (total, cap)` of the
concatenation of all chunks, its length never exceeds the capacity, the
drain loop over data events computes exactly that fold, and the two
capacities in force are 1 MiB (interactive) and 2 MiB (execute). -/
theorem bounded_buffer_suffix (cap : Nat) (chunks : List (List Nat)) (st : SessionState) :
    List.foldl (appendEvict cap) [] chunks = lastN cap chunks.flatten ∧
    (List.foldl (appendEvict cap) [] chunks).length = min cap chunks.flatten.length ∧
    (List.foldl (appendEvict cap) [] chunks).length ≤ cap ∧
    drainRun cap st (chunks.map ReadEvent.data) =
      ⟨List.foldl (appendEvict cap) st.output chunks, st.isAlive⟩ ∧
    MAX_BUFFER_SIZE = 1024 * 1024 ∧ EXEC_BUFFER_SIZE = 2 * 1024 * 1024 := by
  have hmain : List.foldl (appendEvict cap) [] chunks = lastN cap chunks.flatten := by
    have hfold := foldl_appendEvict_lastN cap chunks []
    simpa [lastN_nil] using hfold
  refine ⟨hmain, ?_, ?_, drainRun_data_output cap chunks st, rfl, rfl⟩
  · rw [hmain, length_lastN]
  · rw [hmain, length_lastN]
    omega

/-- Claim C3, counterexample: an ESC character followed by a character
that introduces no recognized sequence is not copied to the output — the
sanitizer drops it — refuting the claim that such an ESC is itself
emitted. -/
theorem lone_esc_not_emitted :
    strip_ansi_escapes "\x1bX" = "X" ∧ strip_ansi_escapes "\x1bX" ≠ "\x1bX" := by
  decide

/-- Claim C3 (amended): every character outside recognized CSI, OSC and
charset-designation sequences that is neither a carriage return nor an
ESC is copied through unchanged and in order; an ESC followed by any
character other than the four sequence introducers is dropped (consumed
without being emitted) while the following character is processed
normally, and a trailing lone ESC is dropped as well. -/
theorem sanitizer_pass_through (cs rest : List Char) (c : Char)
    (hcs : '\x1b' ∉ cs)
    (hc : c ≠ '[' ∧ c ≠ ']' ∧ c ≠ '(' ∧ c ≠ ')') :
    stripAnsi cs = cs.filter (fun x => x != '\r') ∧
    stripAnsi ('\x1b' :: c :: rest) = stripAnsi (c :: rest) ∧
    stripAnsi ['\x1b'] = [] := by
  refine ⟨?_, stripAnsi_esc_other c rest hc.1 hc.2.1 hc.2.2.1 hc.2.2.2, rfl⟩
  have hap := stripAnsi_append_of_no_esc cs [] hcs
  rw [show stripAnsi ([] : List Char) = [] from rfl, List.append_nil, List.append_nil] at hap
  exact hap

/-- Claim C3 witness: plain text with a carriage return passes through
with only the carriage return removed, and a dropped ESC leaves its
follower processed normally. -/
theorem sanitizer_pass_through_witness :
    stripAnsi ['h', 'i', '\r'] = ['h', 'i'] ∧
    stripAnsi ['\x1b', 'X', 'Y'] = stripAnsi ['X', 'Y'] ∧
    stripAnsi ['\x1b'] = [] := by
  have h := sanitizer_pass_through ['h', 'i', '\r'] ['Y'] 'X' (by decide) (by decide)
  refine ⟨?_, h.2.1, h.2.2⟩
  rw [h.1]
  decide

/-- Claim C4, counterexample: `send_input` performs the PTY `write_all`
and `flush` while the registry guard is still held, refuting the claim
that no manager operation holds the session-registry lock across an I/O
operation. -/
theorem send_input_io_under_registry_lock :
    holdsRegAcrossIO sendInputTrace = true := by
  decide

/-- Claim C4 (amended): `read_output`, `close_session` and
`list_sessions` hold the registry lock only over in-memory lookup,
buffer and snapshot work, with no I/O under it; `send_input`, however,
holds the registry lock across its PTY write and flush. -/
theorem registry_lock_io_discipline :
    holdsRegAcrossIO readOutputTrace = false ∧
    holdsRegAcrossIO closeSessionTrace = false ∧
    holdsRegAcrossIO listSessionsTrace = false ∧
    holdsRegAcrossIO sendInputTrace = true := by
  decide

/-- Claim C5: for every registered session and every requested line
count, `read_output` succeeds and returns exactly the last `n`
newline-delimited lines of the sanitized decoded text, together with the
liveness flag and the registry with that buffer drained; when the text
has at most `n` lines, the truncation returns all of them. -/
theorem read_output_last_lines (reg : Registry) (id : String) (s : SessionState) (n : Nat)
    (h : List.lookup id reg = some s) :
    read_output reg id (some n) =
      .ok (lastNLines n (strip_ansi_escapes (from_utf8_lossy s.output)),
        s.isAlive, clearBuffer reg id) ∧
    (∀ text : String, (rustLines text).length ≤ n →
      lastNLines n text = String.intercalate "\n" (rustLines text)) := by
  constructor
  · simp [read_output, h, readOutputText]
  · intro text hlen
    unfold lastNLines
    have hz : (rustLines text).length - n = 0 := by omega
    simp [hz]

/-- Claim C5 witness: with buffered bytes decoding to four lines
`a b c d` and `lines = 2`, `read_output` returns `c\nd`. -/
theorem read_output_last_lines_witness :
    read_output [("s1", (⟨[97, 10, 98, 10, 99, 10, 100], true⟩ : SessionState))] "s1"
        (some 2) =
      .ok ("c\nd", true, [("s1", (⟨[], true⟩ : SessionState))]) := by
  have h := (read_output_last_lines
    [("s1", (⟨[97, 10, 98, 10, 99, 10, 100], true⟩ : SessionState))] "s1"
    ⟨[97, 10, 98, 10, 99, 10, 100], true⟩ 2 (by decide)).1
  rw [h]
  rfl

/-- Claim C6: `read_output` is a destructive read — after a successful
read the session's buffer is empty while every other entry is untouched —
and is idempotent-on-empty: an immediately following `read_output` with
no intervening appends returns the empty string with the liveness flag. -/
theorem read_output_destructive (reg : Registry) (id j : String) (n n2 : Option Nat)
    (text : String) (alive : Bool) (reg' : Registry)
    (h : read_output reg id n = .ok (text, alive, reg')) :
    (List.lookup id reg').map SessionState.output = some [] ∧
    read_output reg' id n2 = .ok ("", alive, clearBuffer reg' id) ∧
    (j ≠ id → List.lookup j reg' = List.lookup j reg) := by
  cases hl : List.lookup id reg with
  | none => simp [read_output, hl] at h
  | some s =>
    simp only [read_output, hl, Except.ok.injEq, Prod.mk.injEq] at h
    obtain ⟨hth, hal, hrg⟩ := h
    subst hth
    subst hal
    subst hrg
    have hl2 : List.lookup id (clearBuffer reg id) = some { s with output := [] } := by
      rw [lookup_clearBuffer_self, hl]
      rfl
    refine ⟨?_, ?_, fun hj => lookup_clearBuffer_ne reg id j hj⟩
    · rw [hl2]
      rfl
    · simp only [read_output, hl2]
      rw [readOutputText_nil]

/-- Claim C6 witness: reading a one-byte buffer empties it; the second
read returns the empty string with the unchanged liveness flag. -/
theorem read_output_destructive_witness :
    (List.lookup "s" [("s", (⟨[], true⟩ : SessionState))]).map SessionState.output =
      some [] ∧
    read_output [("s", (⟨[], true⟩ : SessionState))] "s" (some 5) =
      .ok ("", true, clearBuffer [("s", (⟨[], true⟩ : SessionState))] "s") ∧
    ("t" ≠ "s" → List.lookup "t" [("s", (⟨[], true⟩ : SessionState))] =
      List.lookup "t" [("s", (⟨[104], true⟩ : SessionState))]) :=
  read_output_destructive [("s", ⟨[104], true⟩)] "s" "t" none (some 5) "h" true
    [("s", ⟨[], true⟩)] rfl

/-- Claim C7: each of `send_input`, `read_output` and `close_session`
fails with NotFound on an id absent from the registry, and a successful
`close_session` removes exactly the closed id: it is no longer found
while every other id still maps to its previous session. -/
theorem not_found_errors (reg : Registry) (id j : String) (input : String) (n : Option Nat) :
    (List.lookup id reg = none →
      send_input reg id input = .error (.notFound id) ∧
      read_output reg id n = .error (.notFound id) ∧
      close_session reg id = .error (.notFound id)) ∧
    (∀ reg', close_session reg id = .ok reg' →
      List.lookup id reg' = none ∧
      (j ≠ id → List.lookup j reg' = List.lookup j reg)) := by
  constructor
  · intro hl
    exact ⟨by simp [send_input, hl], by simp [read_output, hl], by simp [close_session, hl]⟩
  · intro reg' hc
    cases hl : List.lookup id reg with
    | none => simp [close_session, hl] at hc
    | some s =>
      simp only [close_session, hl, Except.ok.injEq] at hc
      subst hc
      exact ⟨lookup_filter_self reg id, fun hj => lookup_filter_ne reg id j hj⟩

/-- Claim C7 witness: an unknown id makes all three operations fail with
NotFound, and closing `a` removes exactly `a` while `b` is preserved. -/
theorem not_found_errors_witness :
    (send_input [("a", (⟨[], true⟩ : SessionState))] "b" "x" = .error (.notFound "b") ∧
     read_output [("a", (⟨[], true⟩ : SessionState))] "b" none = .error (.notFound "b") ∧
     close_session [("a", (⟨[], true⟩ : SessionState))] "b" = .error (.notFound "b")) ∧
    (List.lookup "a" [("b", (⟨[104], false⟩ : SessionState))] = none ∧
     ("b" ≠ "a" → List.lookup "b" [("b", (⟨[104], false⟩ : SessionState))] =
       List.lookup "b"
         [("a", (⟨[], true⟩ : SessionState)), ("b", (⟨[104], false⟩ : SessionState))])) :=
  ⟨(not_found_errors [("a", ⟨[], true⟩)] "b" "b" "x" none).1 (by decide),
   (not_found_errors [("a", ⟨[], true⟩), ("b", ⟨[104], false⟩)] "a" "b" "x" none).2
     [("b", ⟨[104], false⟩)] rfl⟩

/-- Claim C8: starting from a live session, the drain loop leaves the
liveness flag false exactly when its read events include an
end-of-stream or a read error; once false the flag stays false under any
further events; and the manager's buffer-draining read never changes any
session's liveness flag. -/
theorem liveness_flag_monotone (cap : Nat) (buf buf2 : List Nat) (evs : List ReadEvent)
    (reg : Registry) (id j : String) :
    ((drainRun cap ⟨buf, true⟩ evs).isAlive = false ↔ evs.any isTermEvent = true) ∧
    (drainRun cap ⟨buf2, false⟩ evs).isAlive = false ∧
    (List.lookup j (clearBuffer reg id)).map SessionState.isAlive =
      (List.lookup j reg).map SessionState.isAlive := by
  refine ⟨?_, ?_, lookup_clearBuffer_isAlive reg id j⟩
  · rw [drainRun_isAlive]
    cases hh : evs.any isTermEvent <;> simp
  · rw [drainRun_isAlive]
    simp

/-- Claim C9: the sanitizer terminates normally on inputs ending in a
truncated escape sequence — a CSI introducer with no final byte, an OSC
introducer with no terminator, a charset introducer with no following
byte, or a bare trailing ESC — emitting none of the incomplete
sequence's bytes. -/
theorem sanitizer_truncated_input (cs ps os : List Char)
    (hcs : '\x1b' ∉ cs)
    (hps : ∀ c ∈ ps, csiFinal c = false)
    (hos : ∀ c ∈ os, c ≠ '\x07' ∧ c ≠ '\x1b') :
    stripAnsi (cs ++ '\x1b' :: '[' :: ps) = stripAnsi cs ∧
    stripAnsi (cs ++ '\x1b' :: ']' :: os) = stripAnsi cs ∧
    stripAnsi (cs ++ ['\x1b', '(']) = stripAnsi cs ∧
    stripAnsi (cs ++ ['\x1b', ')']) = stripAnsi cs ∧
    stripAnsi (cs ++ ['\x1b']) = stripAnsi cs := by
  have hbase := stripAnsi_append_of_no_esc cs [] hcs
  simp only [List.append_nil, stripAnsi] at hbase
  refine ⟨?_, ?_, ?_, ?_, ?_⟩
  · rw [stripAnsi_append_of_no_esc cs _ hcs, stripAnsi_esc_csi, skipCSI_eq_nil ps hps,
      hbase]
    simp [stripAnsi]
  · rw [stripAnsi_append_of_no_esc cs _ hcs, stripAnsi_esc_osc, skipOSC_eq_nil os hos,
      hbase]
    simp [stripAnsi]
  · rw [stripAnsi_append_of_no_esc cs _ hcs, stripAnsi_esc_paren '(' [] (Or.inl rfl),
      hbase]
    simp [stripAnsi]
  · rw [stripAnsi_append_of_no_esc cs _ hcs, stripAnsi_esc_paren ')' [] (Or.inr rfl),
      hbase]
    simp [stripAnsi]
  · rw [stripAnsi_append_of_no_esc cs _ hcs, hbase]
    simp [stripAnsi]

/-- Claim C9 witness: concrete truncated CSI, OSC, charset and bare-ESC
tails after plain text are all dropped without error. -/
theorem sanitizer_truncated_input_witness :
    stripAnsi (['a', 'b'] ++ '\x1b' :: '[' :: ['3', ';']) = stripAnsi ['a', 'b'] ∧
    stripAnsi (['a', 'b'] ++ '\x1b' :: ']' :: ['t']) = stripAnsi ['a', 'b'] ∧
    stripAnsi (['a', 'b'] ++ ['\x1b', '(']) = stripAnsi ['a', 'b'] ∧
    stripAnsi (['a', 'b'] ++ ['\x1b', ')']) = stripAnsi ['a', 'b'] ∧
    stripAnsi (['a', 'b'] ++ ['\x1b']) = stripAnsi ['a', 'b'] :=
  sanitizer_truncated_input ['a', 'b'] ['3', ';'] ['t'] (by decide) (by decide) (by decide)

/-- Claim C10: for a registered session, `read_output` succeeds whatever
bytes the buffer holds — they are decoded by lossy UTF-8 conversion
before sanitization — `execute` applies the same lossy decoding to its
accumulated output, and every invalid leading byte is replaced by
U+FFFD. -/
theorem read_output_lossy_utf8 (reg : Registry) (id : String) (s : SessionState)
    (n : Option Nat) (raw : List Nat) (code : Nat)
    (h : List.lookup id reg = some s) :
    read_output reg id n =
      .ok (readOutputText s.output n, s.isAlive, clearBuffer reg id) ∧
    execFinish raw code =
      ⟨strip_ansi_escapes (from_utf8_lossy raw), code⟩ ∧
    (∀ b rest, (0x80 ≤ b ∧ b ≤ 0xC1) ∨ 0xF5 ≤ b →
      lossyDecode (b :: rest) = replacementChar :: lossyDecode rest) := by
  refine ⟨by simp [read_output, h], rfl, ?_⟩
  intro b rest hb
  have h1 : ¬ b < 0x80 := by omega
  have h2 : (0xC2 ≤ b && b ≤ 0xDF) = false := by
    simp only [Bool.and_eq_false_iff, decide_eq_false_iff_not]
    omega
  have h3 : (0xE0 ≤ b && b ≤ 0xEF) = false := by
    simp only [Bool.and_eq_false_iff, decide_eq_false_iff_not]
    omega
  have h4 : (0xF0 ≤ b && b ≤ 0xF4) = false := by
    simp only [Bool.and_eq_false_iff, decide_eq_false_iff_not]
    omega
  rw [lossyDecode.eq_def]
  simp [h1, h2, h3, h4]

/-- Claim C10 witness: a buffer starting with the invalid byte 0xFF is
read successfully, decoding to U+FFFD followed by the valid ASCII
tail. -/
theorem read_output_lossy_utf8_witness :
    read_output [("u", (⟨[255, 104, 105], true⟩ : SessionState))] "u" none =
      .ok (readOutputText [255, 104, 105] none, true,
        clearBuffer [("u", (⟨[255, 104, 105], true⟩ : SessionState))] "u") ∧
    lossyDecode [255, 104, 105] = replacementChar :: lossyDecode [104, 105] ∧
    readOutputText [255, 104, 105] none = String.mk [replacementChar, 'h', 'i'] := by
  have h := read_output_lossy_utf8
    [("u", (⟨[255, 104, 105], true⟩ : SessionState))] "u"
    ⟨[255, 104, 105], true⟩ none [255] 0 (by decide)
  exact ⟨h.1, h.2.2 255 [104, 105] (Or.inr (by omega)), by decide⟩

end McpTerminal
